import Mathlib

set_option maxHeartbeats 1000000

namespace BlockSTM

/-! Shallow embedding of the parallel block executor
(aptos-move/block-executor/src/executor.rs) and of the contracts of its
collaborator modules (scheduler, multi-version map, captured reads,
txn-last-input-output table) that the sampled file calls into. -/

/-- Execution status of a single transaction, as produced by the executor task
and recorded in the txn last-input-output table (task.rs variants matched all
over executor.rs). -/
inductive ExecutionStatus (O E : Type) where
  | Success : O → ExecutionStatus O E
  | SkipRest : O → ExecutionStatus O E
  | Abort : E → ExecutionStatus O E
  | SpeculativeExecutionAbortError : String → ExecutionStatus O E
  | DelayedFieldsCodeInvariantError : String → ExecutionStatus O E
deriving DecidableEq

/-- Hard internal failure (aptos_types::delayed_fields::PanicError); built by
code_invariant_error in the source. -/
inductive PanicError where
  | codeInvariantError : String → PanicError
deriving DecidableEq

/-- PanicOr from aptos_aggregator::types: either a hard CodeInvariantError or a
recoverable error of type E. -/
inductive PanicOr (E : Type) where
  | codeInvariantError : String → PanicOr E
  | or : E → PanicOr E
deriving DecidableEq

/-- Errors of the parallel run (errors.rs): a module read/write conflict, or a
fatal VM error surfaced at commit time. -/
inductive ParallelBlockExecutionError where
  | modulePathReadWriteError
  | fatalVMError
deriving DecidableEq

/-- Block-level error returned by the dispatcher (errors.rs). -/
inductive BlockExecutionError (E : Type) where
  | fatalBlockExecutorError : PanicError → BlockExecutionError E
  | fatalVMError : E → BlockExecutionError E
deriving DecidableEq

/-- Error of a sequential run (errors.rs): a resource-group BCS serialization
failure (which triggers the BCS-fallback re-run) or an error to return. -/
inductive SequentialBlockExecutionError (E : Type) where
  | resourceGroupSerializationError
  | errorToReturn : BlockExecutionError E → SequentialBlockExecutionError E
deriving DecidableEq

/-- Status codes used when discarding outputs (move_core_types::vm_status,
only the two codes executor.rs mentions). -/
inductive StatusCode where
  | delayedMaterializationCodeInvariantError
  | unknownInvariantViolationError
deriving DecidableEq

/-- Lift of a PanicError into a PanicOr, as the question-mark conversion does
in the worker loop of executor.rs. -/
def panicErrToPanicOr {E : Type} : PanicError → PanicOr E
  | .codeInvariantError m => .codeInvariantError m

/-! Embedding for the updates_outside computation of execute
(executor.rs lines 117-301).  The write sets extracted from the VM output are
modelled as lists of keys; the boolean attached to each group write is
modelled from the spec: group_data.write (mvhashmap crate, not under src/)
returns a boolean indicating whether this incarnation's group write changes
membership relative to the previous incarnation, and apply_updates folds that
boolean into updates_outside. -/

/-- Write sets of one transaction output, in the shape execute consumes them:
resource-group writes carry the boolean that versioned_cache.group_data.write
reports, the remaining sets are plain key lists. -/
structure TxnOutputWrites (K : Type) where
  resourceGroupWriteSet : List (K × Bool)
  resourceWriteSet : List K
  aggregatorV1WriteSet : List K
  moduleWriteSet : List K
  aggregatorV1DeltaSet : List K
deriving DecidableEq

variable {K : Type} [DecidableEq K]

/-- One plain write inside apply_updates: remove the key from
prev_modified_keys; when it was absent, set updates_outside.  State is the
pair of the remaining previous keys and the updates_outside flag. -/
def writeStep (st : List K × Bool) (k : K) : List K × Bool :=
  if k ∈ st.1 then (st.1.erase k, st.2) else (st.1, true)

/-- One resource-group write inside apply_updates: the plain-write step for
the group key, then or-ing in the membership-change boolean that
group_data.write returned. -/
def groupWriteStep (st : List K × Bool) (gw : K × Bool) : List K × Bool :=
  if gw.2 then ((writeStep st gw.1).1, true) else writeStep st gw.1

/-- The state left by apply_updates (executor.rs lines 129-233): group writes
first, then resource writes chained with aggregator-v1 writes, then module
writes, then aggregator-v1 deltas.  The first component is what remains of
prev_modified_keys (afterwards removed from the versioned cache without
touching updates_outside, lines 276-286), the second is updates_outside. -/
def applyUpdatesState (prev : List K) (out : TxnOutputWrites K) : List K × Bool :=
  let st0 := out.resourceGroupWriteSet.foldl groupWriteStep (prev, false)
  let st1 := (out.resourceWriteSet ++ out.aggregatorV1WriteSet).foldl writeStep st0
  let st2 := out.moduleWriteSet.foldl writeStep st1
  out.aggregatorV1DeltaSet.foldl writeStep st2

/-- The updates_outside flag execute returns to the scheduler. -/
def updates_outside (prev : List K) (out : TxnOutputWrites K) : Bool :=
  (applyUpdatesState prev out).2

/-- All keys written by this incarnation, in processing order. -/
def writtenKeys (out : TxnOutputWrites K) : List K :=
  out.resourceGroupWriteSet.map Prod.fst ++ out.resourceWriteSet ++
    out.aggregatorV1WriteSet ++ out.moduleWriteSet ++ out.aggregatorV1DeltaSet

variable {V O E : Type} {F R P : Type}

/-! Embedding for the equivalence claim.  The VM capability and the
collaborator stores are not under src/, so the transaction model and the
commit-time validation contract are modelled from the spec. -/

/-- Modelled from the spec: a transaction as the executor sees it is the
injected execute_transaction capability (section 6); per section 3 an
incarnation observes a list of key reads, and its write set and output are a
function of the observed values (the read key set is fixed in this model). -/
structure STxn (K V O : Type) where
  readKeys : List K
  compute : List (Option V) → List (K × V) × O

/-- Apply one write on top of a key-value view. -/
def applyWrite (st : K → Option V) (kv : K × V) : K → Option V :=
  fun k => if k = kv.1 then some kv.2 else st k

/-- Apply a write set in order on top of a key-value view. -/
def applyWrites (st : K → Option V) (ws : List (K × V)) : K → Option V :=
  ws.foldl applyWrite st

/-- Sequential execution in index order: the state-update-and-output
contract of execute_transactions_sequential (executor.rs lines 995-1276)
when every transaction succeeds — each transaction reads the view left by
its predecessors, its writes are applied, its output is collected. -/
def seqOutputs (st : K → Option V) : List (STxn K V O) → List O
  | [] => []
  | t :: ts =>
      (t.compute (t.readKeys.map st)).2 ::
        seqOutputs (applyWrites st (t.compute (t.readKeys.map st)).1) ts

/-- What the parallel commit pipeline records for one committed index: the
captured reads of the final incarnation, its write set and its output. -/
structure CommitRecord (K V O : Type) where
  capturedReads : List (Option V)
  writes : List (K × V)
  output : O

/-- Modelled from the spec: the commit-time contract of the scheduler,
multi-version map and captured-reads validation (Invariant 3 of section 3,
try_commit of section 4.D, validation of section 4.C — the modules are not
under src/): when index i commits, its recorded result is an actual run of
transaction i on its captured reads, and every captured read equals the
value produced by the final writes of transactions 0..i-1 over the base
view. -/
def ValidatedRun (base : K → Option V) :
    List (STxn K V O) → List (CommitRecord K V O) → Prop
  | [], [] => True
  | t :: ts, r :: rs =>
      r.capturedReads = t.readKeys.map base ∧
      (r.writes, r.output) = t.compute r.capturedReads ∧
      ValidatedRun (applyWrites base r.writes) ts rs
  | _, _ => False

/-! Embedding for the module read/write fallback and the dispatcher. -/

/-- Modelled from the spec: TxnLastInputOutput.record (txn_last_input_output
module, not under src/) returns false exactly when some module key appears
both in the captured module reads and in the module write set (section 4.C:
module reads are recorded to detect module read/write conflicts). -/
def record_succeeds (moduleReads moduleWrites : List K) : Bool :=
  !(moduleReads.any fun k => decide (k ∈ moduleWrites))

/-- Tail of execute (executor.rs lines 292-300): when record reports a
module read/write intersection, execute surfaces
ModulePathReadWriteError; otherwise it returns updates_outside. -/
def execute_record_result (moduleReads moduleWrites : List K)
    (updatesOutside : Bool) : Except (PanicOr ParallelBlockExecutionError) Bool :=
  if record_succeeds moduleReads moduleWrites then .ok updatesOutside
  else .error (.or .modulePathReadWriteError)

/-- Error propagation of execute_transactions_parallel (executor.rs lines
880-918): if any worker loop returns an error, the shared error flag is set
and the parallel run returns Err; otherwise the final results become the
block output. -/
def parallel_result_from_workers
    (workerResults : List (Except (PanicOr ParallelBlockExecutionError) Unit))
    (finalResults : List O) : Except Unit (List O) :=
  if workerResults.any fun r => match r with | .error _ => true | .ok _ => false
  then .error () else .ok finalResults

/-- Status code used when a failed block is discarded (executor.rs lines
1358-1365). -/
def discard_error_code : BlockExecutionError E → StatusCode
  | .fatalBlockExecutorError _ => .delayedMaterializationCodeInvariantError
  | .fatalVMError _ => .unknownInvariantViolationError

/-- Outcome of execute_block: a block output, a returned error, or a Rust
panic. -/
inductive ExecuteBlockOutcome (O E : Type) where
  | output : List O → ExecuteBlockOutcome O E
  | error : BlockExecutionError E → ExecuteBlockOutcome O E
  | panicked : ExecuteBlockOutcome O E
deriving DecidableEq

/-- Terminal handling of a sequential error (executor.rs lines 1354-1373):
with discard_failed_blocks all outputs are replaced by discard outputs with
the mapped status code, otherwise the error is returned. -/
def sequential_error_outcome (discardFailedBlocks : Bool) (numTxns : Nat)
    (discardOutput : StatusCode → O) (e : BlockExecutionError E) :
    ExecuteBlockOutcome O E :=
  if discardFailedBlocks then
    .output (List.replicate numTxns (discardOutput (discard_error_code e)))
  else .error e

/-- Sequential half of execute_block (executor.rs lines 1307-1373): run the
sequential executor; on a resource-group serialization error panic when
fallback is not allowed, otherwise re-run in BCS-fallback mode; remaining
errors go through sequential_error_outcome. -/
def sequential_execution_outcome (allowFallback discardFailedBlocks : Bool)
    (numTxns : Nat) (discardOutput : StatusCode → O)
    (sequentialResult : Bool → Except (SequentialBlockExecutionError E) (List O)) :
    ExecuteBlockOutcome O E :=
  match sequentialResult false with
  | .ok out => .output out
  | .error .resourceGroupSerializationError =>
      if !allowFallback then .panicked
      else
        match sequentialResult true with
        | .ok out => .output out
        | .error .resourceGroupSerializationError =>
            sequential_error_outcome discardFailedBlocks numTxns discardOutput
              (.fatalBlockExecutorError (.codeInvariantError
                "resource group serialization during bcs fallback should not happen"))
        | .error (.errorToReturn e) =>
            sequential_error_outcome discardFailedBlocks numTxns discardOutput e
  | .error (.errorToReturn e) =>
      sequential_error_outcome discardFailedBlocks numTxns discardOutput e

/-- Dispatcher execute_block (executor.rs lines 1278-1374), with the results
of the parallel run and of the sequential runs passed in. -/
def execute_block (concurrencyLevel : Nat)
    (allowFallback discardFailedBlocks : Bool) (numTxns : Nat)
    (discardOutput : StatusCode → O)
    (parallelResult : Except Unit (List O))
    (sequentialResult : Bool → Except (SequentialBlockExecutionError E) (List O)) :
    ExecuteBlockOutcome O E :=
  if 1 < concurrencyLevel then
    match parallelResult with
    | .ok out => .output out
    | .error _ =>
        if !allowFallback then .panicked
        else
          sequential_execution_outcome allowFallback discardFailedBlocks numTxns
            discardOutput sequentialResult
  else
    sequential_execution_outcome allowFallback discardFailedBlocks numTxns
      discardOutput sequentialResult

/-! Embedding for the commit pipeline pre-check and re-execution. -/

/-- CommitError of the versioned delayed-field store
(aptos_mvhashmap::versioned_delayed_fields). -/
inductive CommitError where
  | reExecutionNeeded : String → CommitError
  | codeInvariantError : String → CommitError
deriving DecidableEq

/-- validate_commit_ready (executor.rs lines 390-420): validate the delayed
field reads; when still valid and the index recorded delayed-field keys, run
try_commit on the delayed-field store, mapping ReExecutionNeeded to false
and escalating CommitError.codeInvariantError.  The results of the two
collaborator calls are passed in. -/
def validate_commit_ready (validateDelayedFieldReads : Except PanicError Bool)
    (delayedFieldKeys : Option Unit)
    (tryCommitResult : Except CommitError Unit) : Except PanicError Bool :=
  match validateDelayedFieldReads with
  | .error e => .error e
  | .ok valid =>
      if valid then
        match delayedFieldKeys with
        | some _ =>
            match tryCommitResult with
            | .ok _ => .ok true
            | .error (.reExecutionNeeded _) => .ok false
            | .error (.codeInvariantError msg) => .error (.codeInvariantError msg)
        | none => .ok true
      else .ok false

/-- Actions the commit pipeline takes on a commit-ready index. -/
inductive CommitAction where
  | abortUpdate : Nat → CommitAction
  | reexecute : Nat → Nat → CommitAction
deriving DecidableEq

/-- Validation phase of prepare_and_queue_commit_ready_txns for one index
popped by try_commit (executor.rs lines 446-485): when validate_commit_ready
returns false, the incarnation is aborted and the index is re-executed
in-line once with incarnation + 1, after which validate and a second
validate_commit_ready must both pass, or the run fails with a
CodeInvariantError.  vcr1 is the first validate_commit_ready result; reexec,
valid2 and vcr2 are the results of the in-line re-execution (together with
finish_execution_during_commit), of validate, and of the second
validate_commit_ready.  Returns the actions taken and the overall result. -/
def commit_ready_validate_phase (txnIdx incarnation : Nat)
    (vcr1 : Except PanicError Bool)
    (reexec : Except (PanicOr ParallelBlockExecutionError) Unit)
    (valid2 : Except PanicError Bool) (vcr2 : Except PanicError Bool) :
    List CommitAction × Except (PanicOr ParallelBlockExecutionError) Unit :=
  match vcr1 with
  | .error e => ([], .error (panicErrToPanicOr e))
  | .ok true => ([], .ok ())
  | .ok false =>
      match reexec with
      | .error e =>
          ([CommitAction.abortUpdate txnIdx,
            CommitAction.reexecute txnIdx (incarnation + 1)], .error e)
      | .ok _ =>
          match valid2 with
          | .error e =>
              ([CommitAction.abortUpdate txnIdx,
                CommitAction.reexecute txnIdx (incarnation + 1)],
                .error (panicErrToPanicOr e))
          | .ok v =>
              if !v || !(match vcr2 with | .ok b => b | .error _ => false) then
                ([CommitAction.abortUpdate txnIdx,
                  CommitAction.reexecute txnIdx (incarnation + 1)],
                  .error (.codeInvariantError
                    "Validation after re-execution failed"))
              else
                ([CommitAction.abortUpdate txnIdx,
                  CommitAction.reexecute txnIdx (incarnation + 1)], .ok ())

/-! Embedding for commit order, skip-rest halting and output assembly. -/

/-- Order in which prepare_and_queue_commit_ready_txns commits indices from
idx on, with the given fuel: try_commit yields indices in order (the
commit_idx pointer of section 4.D advances by one per commit), and the loop
halts after committing index i exactly when i is the last index or the
recorded status at i is SkipRest (executor.rs lines 556-581). -/
def commitSeqFrom (n : Nat) (skipRestAt : Nat → Bool) : Nat → Nat → List Nat
  | 0, _ => []
  | fuel + 1, idx =>
      if idx + 1 = n || skipRestAt idx then [idx]
      else idx :: commitSeqFrom n skipRestAt fuel (idx + 1)

/-- All indices the parallel run commits, in commit order. -/
def commitSequence (n : Nat) (skipRestAt : Nat → Bool) : List Nat :=
  commitSeqFrom n skipRestAt n 0

/-- Parallel final results: the vector is created with n copies of
skip_output (executor.rs lines 866-872) and materialization overwrites
exactly the committed indices (lines 708-718). -/
def parallel_final_results (n : Nat) (skipOutput : O)
    (materializedOutput : Nat → O) (skipRestAt : Nat → Bool) : List O :=
  (List.range n).map fun i =>
    if i ∈ commitSequence n skipRestAt then materializedOutput i else skipOutput

/-- Parallel block output (execute_transactions_parallel, executor.rs lines
854-872 and 916-918): an empty block short-circuits to an empty output
vector. -/
def execute_transactions_parallel_outputs (n : Nat) (skipOutput : O)
    (materializedOutput : Nat → O) (skipRestAt : Nat → Bool) : List O :=
  if n = 0 then []
  else parallel_final_results n skipOutput materializedOutput skipRestAt

/-- Indices for which materialize_txn_commit runs, and hence the only
indices for which the transaction-commit listener can be invoked: exactly
the indices enqueued on the commit queue, which are the committed ones
(executor.rs lines 548-550 and 693-706). -/
def listener_invoked_indices (n : Nat) (skipRestAt : Nat → Bool) : List Nat :=
  commitSequence n skipRestAt

/-! Embedding for the gas-accounting commit step. -/

/-- Subset of the on-chain BlockGasLimitType config consulted at commit. -/
structure BlockGasLimitTypeCfg where
  blockOutputLimit : Option Nat
  includeUserTxnSizeInBlockOutput : Bool
  conflictPenaltyWindow : Option Nat

/-- Per-index inputs of the gas-accounting step: the recorded fee statement
and approximate output size, the user transaction byte length, the
read-write summary, and (modelled from the spec: BlockGasLimitProcessor in
the limit_processor module, not under src/) the processor's
accumulate_fee_statement and should_end_block_parallel operations. -/
structure CommitGasEnv (F R P : Type) where
  feeStatement : Option F
  outputApproxSize : Option Nat
  userTxnBytesLen : Nat
  readWriteSummary : R
  accumulateFeeStatement : P → F → Option R → Option Nat → P
  shouldEndBlockParallel : P → Bool

/-- Approximate output size fed to the processor (executor.rs lines
494-505): present only under a block output limit, and then the recorded
approximate output size plus optionally the user transaction size. -/
def approx_output_size (cfg : BlockGasLimitTypeCfg) (env : CommitGasEnv F R P) :
    Option Nat :=
  cfg.blockOutputLimit.bind fun _ =>
    env.outputApproxSize.map fun approx =>
      approx + (if cfg.includeUserTxnSizeInBlockOutput then env.userTxnBytesLen else 0)

/-- Read-write summary fed to the processor (executor.rs lines 506-508):
present only under a conflict penalty window. -/
def txn_read_write_summary (cfg : BlockGasLimitTypeCfg) (env : CommitGasEnv F R P) :
    Option R :=
  cfg.conflictPenaltyWindow.map fun _ => env.readWriteSummary

/-- Gas-accounting step of the commit pipeline (executor.rs lines 493-523):
when a fee statement is recorded for the index, feed (fee statement,
read-write summary, approximate output size) into the block limit processor
and, when the processor then wants to end the block and the index is not the
last one, rewrite the status of the index to SkipRest.  Returns the new
processor state, whether update_to_skip_rest was called, and the tuple fed. -/
def commit_gas_step (cfg : BlockGasLimitTypeCfg) (env : CommitGasEnv F R P)
    (txnIdx n : Nat) (proc : P) : P × Bool × Option (F × Option R × Option Nat) :=
  match env.feeStatement with
  | none => (proc, false, none)
  | some fs =>
      (env.accumulateFeeStatement proc fs (txn_read_write_summary cfg env)
          (approx_output_size cfg env),
        decide (txnIdx < n - 1) &&
          env.shouldEndBlockParallel
            (env.accumulateFeeStatement proc fs (txn_read_write_summary cfg env)
              (approx_output_size cfg env)),
        some (fs, txn_read_write_summary cfg env, approx_output_size cfg env))

/-! Embedding for the commit-time status checks and materialization. -/

/-- Modelled from the spec: TxnLastInputOutput.check_fatal_vm_error (not
under src/) surfaces a FatalVMError when the recorded status is Abort
(section 4.F step 2). -/
def check_fatal_vm_error :
    ExecutionStatus O E → Except ParallelBlockExecutionError Unit
  | .Abort _ => .error .fatalVMError
  | _ => .ok ()

/-- Modelled from the spec:
TxnLastInputOutput.check_execution_status_during_commit (not under src/)
checks the invariants on the recorded output: Speculative or CodeInvariant
statuses cannot be committed (section 4.F). -/
def check_execution_status_during_commit :
    ExecutionStatus O E → Except PanicError Unit
  | .SpeculativeExecutionAbortError m => .error (.codeInvariantError m)
  | .DelayedFieldsCodeInvariantError m => .error (.codeInvariantError m)
  | _ => .ok ()

/-- The status checks the commit pipeline performs before an index is added
to the commit queue (executor.rs lines 487-491). -/
def commit_status_checks (s : ExecutionStatus O E) :
    Except (PanicOr ParallelBlockExecutionError) Unit :=
  match check_fatal_vm_error s with
  | .error e => .error (.or e)
  | .ok _ =>
      match check_execution_status_during_commit s with
      | .error e => .error (panicErrToPanicOr e)
      | .ok _ => .ok ()

/-- How materialize_txn_commit treats the recorded status when invoking the
commit listener (executor.rs lines 693-718): Success and SkipRest call
on_transaction_committed, Abort calls on_execution_aborted, and the two
speculative-internal statuses hit a fatal unreachable branch. -/
inductive MaterializeListenerStep where
  | onTransactionCommitted : Nat → MaterializeListenerStep
  | onExecutionAborted : Nat → MaterializeListenerStep
  | unreachableFatal : MaterializeListenerStep
deriving DecidableEq

/-- Listener dispatch of materialize_txn_commit on the recorded status. -/
def materialize_listener_step (txnIdx : Nat) :
    ExecutionStatus O E → MaterializeListenerStep
  | .Success _ => .onTransactionCommitted txnIdx
  | .SkipRest _ => .onTransactionCommitted txnIdx
  | .Abort _ => .onExecutionAborted txnIdx
  | .SpeculativeExecutionAbortError _ => .unreachableFatal
  | .DelayedFieldsCodeInvariantError _ => .unreachableFatal

/-! Embedding for the sequential loop's output count. -/

/-- Sequential loop of execute_transactions_sequential (executor.rs lines
1019-1265), given one recorded status per transaction plus the flag whether
the block limit processor ends the block after that index: one output is
pushed per executed transaction, the loop stops after a SkipRest or a limit
hit, and hard statuses abort the whole run with an error. -/
def seq_loop :
    List (ExecutionStatus O E × Bool) → Except (SequentialBlockExecutionError E) (List O)
  | [] => .ok []
  | (st, endAfter) :: rest =>
      match st with
      | .Abort err => .error (.errorToReturn (.fatalVMError err))
      | .DelayedFieldsCodeInvariantError m =>
          .error (.errorToReturn (.fatalBlockExecutorError (.codeInvariantError m)))
      | .SpeculativeExecutionAbortError m =>
          .error (.errorToReturn (.fatalBlockExecutorError (.codeInvariantError m)))
      | .SkipRest out => .ok [out]
      | .Success out =>
          if endAfter then .ok [out]
          else
            match seq_loop rest with
            | .ok outs => .ok (out :: outs)
            | .error e => .error e

/-- Output assembly of execute_transactions_sequential (executor.rs lines
1267-1275): the collected outputs are resized with skip_output up to the
block size. -/
def execute_transactions_sequential_outputs (skipOutput : O)
    (steps : List (ExecutionStatus O E × Bool)) :
    Except (SequentialBlockExecutionError E) (List O) :=
  match seq_loop steps with
  | .ok ret => .ok (ret ++ List.replicate (steps.length - ret.length) skipOutput)
  | .error e => .error e

/-! Embedding for validate and the incorrect-use flag. -/

/-- Captured-reads state consulted by validate: the incorrect-use flag and
the results of validate_data_reads and validate_group_reads (captured_reads
module, not under src/; their results are passed in as booleans). -/
structure CapturedReadsState where
  isIncorrectUse : Bool
  dataReadsValid : Bool
  groupReadsValid : Bool
deriving DecidableEq

/-- validate (executor.rs lines 303-331): an incorrect-use flag is a hard
CodeInvariantError; otherwise validity is the conjunction of the data-read
and group-read validations. -/
def validate (rs : CapturedReadsState) : Except PanicError Bool :=
  if rs.isIncorrectUse then
    .error (.codeInvariantError "Incorrect use detected in CapturedReads")
  else .ok (rs.dataReadsValid && rs.groupReadsValid)

/-! Concrete witness data. -/

/-- Witness base view for the equivalence claim. -/
def c1base : Nat → Option Nat := fun _ => none

/-- Witness transaction: reads key 0, writes 7 to key 0, outputs the number
of observed reads. -/
def c1txn : STxn Nat Nat Nat :=
  ⟨[0], fun vs => ([(0, 7)], vs.length)⟩

/-- Witness commit record matching c1txn run against c1base. -/
def c1rec : CommitRecord Nat Nat Nat :=
  ⟨[none], [(0, 7)], 1⟩

/-- Witness previous modified keys for the updates_outside claim. -/
def c4prev : List Nat := [0, 1]

/-- Witness write sets for the updates_outside claim. -/
def c4out : TxnOutputWrites Nat :=
  ⟨[(5, false)], [0], [], [2], []⟩

theorem writeStep_eq (rem : List K) (b : Bool) (k : K) :
    writeStep (rem, b) k
      = (if k ∈ rem then rem.erase k else rem, b || !(decide (k ∈ rem))) := by
  by_cases h : k ∈ rem <;> simp [writeStep, h]

theorem groupWriteStep_eq (rem : List K) (b : Bool) (gw : K × Bool) :
    groupWriteStep (rem, b) gw
      = (if gw.1 ∈ rem then rem.erase gw.1 else rem,
          b || (!(decide (gw.1 ∈ rem)) || gw.2)) := by
  by_cases h : gw.1 ∈ rem <;> by_cases hg : gw.2 = true <;>
    simp [groupWriteStep, writeStep, h, hg]

theorem writeStep_fold_true (ws : List K) : ∀ rem : List K,
    (ws.foldl writeStep (rem, true)).2 = true := by
  induction ws with
  | nil => intro rem; rfl
  | cons k ws ih =>
      intro rem
      rw [List.foldl_cons, writeStep_eq]
      simp only [Bool.true_or]
      exact ih _

theorem groupWriteStep_fold_true (gws : List (K × Bool)) : ∀ rem : List K,
    (gws.foldl groupWriteStep (rem, true)).2 = true := by
  induction gws with
  | nil => intro rem; rfl
  | cons gw gws ih =>
      intro rem
      rw [List.foldl_cons, groupWriteStep_eq]
      simp only [Bool.true_or]
      exact ih _

theorem writeStep_mem_preserved (j : K) (ws : List K) :
    ∀ (rem : List K) (b : Bool), j ∉ ws →
      (j ∈ (ws.foldl writeStep (rem, b)).1 ↔ j ∈ rem) := by
  induction ws with
  | nil => intro rem b _; rfl
  | cons k ws ih =>
      intro rem b hj
      have hjk : j ≠ k := fun h => hj (h ▸ List.mem_cons_self k ws)
      have hjws : j ∉ ws := fun h => hj (List.mem_cons_of_mem k h)
      rw [List.foldl_cons, writeStep_eq]
      by_cases h : k ∈ rem
      · rw [if_pos h]
        exact (ih _ _ hjws).trans (List.mem_erase_of_ne hjk)
      · rw [if_neg h]
        exact ih _ _ hjws

theorem groupWriteStep_mem_preserved (j : K) (gws : List (K × Bool)) :
    ∀ (rem : List K) (b : Bool), j ∉ gws.map Prod.fst →
      (j ∈ (gws.foldl groupWriteStep (rem, b)).1 ↔ j ∈ rem) := by
  induction gws with
  | nil => intro rem b _; rfl
  | cons gw gws ih =>
      intro rem b hj
      rw [List.map_cons] at hj
      have hjk : j ≠ gw.1 := fun h => hj (h ▸ List.mem_cons_self _ _)
      have hjws : j ∉ gws.map Prod.fst := fun h => hj (List.mem_cons_of_mem _ h)
      rw [List.foldl_cons, groupWriteStep_eq]
      by_cases h : gw.1 ∈ rem
      · rw [if_pos h]
        exact (ih _ _ hjws).trans (List.mem_erase_of_ne hjk)
      · rw [if_neg h]
        exact ih _ _ hjws

theorem writeStep_flag (prev : List K) (ws : List K) :
    ∀ (rem : List K) (b : Bool), ws.Nodup →
      (∀ k ∈ ws, (k ∈ rem ↔ k ∈ prev)) →
      (ws.foldl writeStep (rem, b)).2
        = (b || ws.any fun k => !(decide (k ∈ prev))) := by
  induction ws with
  | nil => intro rem b _ _; simp
  | cons k ws ih =>
      intro rem b hnd hagree
      have hk : k ∈ rem ↔ k ∈ prev := hagree k (List.mem_cons_self k ws)
      have hknotin : k ∉ ws := (List.nodup_cons.mp hnd).1
      have hnd2 : ws.Nodup := (List.nodup_cons.mp hnd).2
      rw [List.foldl_cons, writeStep_eq]
      by_cases h : k ∈ rem
      · have hkp : k ∈ prev := hk.mp h
        have hagree2 : ∀ j ∈ ws, (j ∈ rem.erase k ↔ j ∈ prev) := by
          intro j hj
          have hjk : j ≠ k := fun hh => hknotin (hh ▸ hj)
          exact (List.mem_erase_of_ne hjk).trans
            (hagree j (List.mem_cons_of_mem k hj))
        rw [if_pos h, ih _ _ hnd2 hagree2]
        simp [h, hkp]
      · have hkp : k ∉ prev := fun hh => h (hk.mpr hh)
        rw [if_neg h]
        have hb : (b || !(decide (k ∈ rem))) = true := by
          simp [h]
        rw [hb, writeStep_fold_true]
        simp [hkp]

theorem groupWriteStep_flag (prev : List K) (gws : List (K × Bool)) :
    ∀ (rem : List K) (b : Bool), (gws.map Prod.fst).Nodup →
      (∀ k ∈ gws.map Prod.fst, (k ∈ rem ↔ k ∈ prev)) →
      (gws.foldl groupWriteStep (rem, b)).2
        = (b || gws.any fun gw => (!(decide (gw.1 ∈ prev)) || gw.2)) := by
  induction gws with
  | nil => intro rem b _ _; simp
  | cons gw gws ih =>
      intro rem b hnd hagree
      rw [List.map_cons] at hnd
      have hk : gw.1 ∈ rem ↔ gw.1 ∈ prev := hagree gw.1 (by simp)
      have hknotin : gw.1 ∉ gws.map Prod.fst := (List.nodup_cons.mp hnd).1
      have hnd2 : (gws.map Prod.fst).Nodup := (List.nodup_cons.mp hnd).2
      have hagreetail : ∀ j ∈ gws.map Prod.fst, (j ∈ rem ↔ j ∈ prev) := by
        intro j hj
        exact hagree j (List.mem_cons_of_mem _ hj)
      rw [List.foldl_cons, groupWriteStep_eq]
      by_cases h : gw.1 ∈ rem
      · have hkp : gw.1 ∈ prev := hk.mp h
        have hagree2 : ∀ j ∈ gws.map Prod.fst, (j ∈ rem.erase gw.1 ↔ j ∈ prev) := by
          intro j hj
          have hjk : j ≠ gw.1 := fun hh => hknotin (hh ▸ hj)
          exact (List.mem_erase_of_ne hjk).trans (hagreetail j hj)
        rw [if_pos h, ih _ _ hnd2 hagree2]
        simp [h, hkp, Bool.or_assoc]
      · have hkp : gw.1 ∉ prev := fun hh => h (hk.mpr hh)
        rw [if_neg h]
        have hb : (b || (!(decide (gw.1 ∈ rem)) || gw.2)) = true := by
          simp [h]
        rw [hb, groupWriteStep_fold_true]
        simp [hkp]

/-- C4.  updates_outside is true exactly when this incarnation wrote a key the
previous incarnation did not write, or performed a group write for which
group_data.write reports a membership change; leftover previously-written
keys that are merely dropped never set the flag (they are only removed from
the versioned cache, executor.rs lines 276-286). -/
theorem C4_updates_outside_iff (prev : List K) (out : TxnOutputWrites K)
    (h : (writtenKeys out).Nodup) :
    updates_outside prev out = true ↔
      ((∃ k, k ∈ writtenKeys out ∧ k ∉ prev) ∨
        ∃ gw, gw ∈ out.resourceGroupWriteSet ∧ gw.2 = true) := by
  have hnd := h
  unfold writtenKeys at hnd
  simp only [List.nodup_append, List.disjoint_append_right,
    List.disjoint_append_left] at hnd
  obtain ⟨⟨⟨⟨hA, hB, hAB⟩, hC, hAC, hBC⟩, hD, ⟨hAD, hBD⟩, hCD⟩,
    hE, ⟨⟨hAE, hBE⟩, hCE⟩, hDE⟩ := hnd
  obtain ⟨rem0, b0, hst0⟩ :
      ∃ rem0 b0,
        out.resourceGroupWriteSet.foldl groupWriteStep (prev, false) = (rem0, b0) :=
    ⟨_, _, rfl⟩
  have hb0 : b0
      = out.resourceGroupWriteSet.any fun gw => (!(decide (gw.1 ∈ prev)) || gw.2) := by
    have hh := groupWriteStep_flag prev out.resourceGroupWriteSet prev false hA
      (fun k _ => Iff.rfl)
    rw [hst0] at hh
    simpa using hh
  have hrem0 : ∀ j, j ∉ out.resourceGroupWriteSet.map Prod.fst → (j ∈ rem0 ↔ j ∈ prev) := by
    intro j hj
    have hh := groupWriteStep_mem_preserved j out.resourceGroupWriteSet prev false hj
    rw [hst0] at hh
    exact hh
  obtain ⟨rem1, b1, hst1⟩ :
      ∃ rem1 b1,
        (out.resourceWriteSet ++ out.aggregatorV1WriteSet).foldl writeStep (rem0, b0)
          = (rem1, b1) :=
    ⟨_, _, rfl⟩
  have hnotinA : ∀ k ∈ out.resourceWriteSet ++ out.aggregatorV1WriteSet,
      k ∉ out.resourceGroupWriteSet.map Prod.fst := by
    intro k hk hkA
    rcases List.mem_append.mp hk with hkB | hkC
    · exact hAB hkA hkB
    · exact hAC hkA hkC
  have hndBC : (out.resourceWriteSet ++ out.aggregatorV1WriteSet).Nodup :=
    List.nodup_append.mpr ⟨hB, hC, hBC⟩
  have hb1 : b1 = (b0 || (out.resourceWriteSet ++ out.aggregatorV1WriteSet).any
      fun k => !(decide (k ∈ prev))) := by
    have hh := writeStep_flag prev (out.resourceWriteSet ++ out.aggregatorV1WriteSet)
      rem0 b0 hndBC (fun k hk => hrem0 k (hnotinA k hk))
    rw [hst1] at hh
    exact hh
  have hrem1 : ∀ j, j ∉ out.resourceGroupWriteSet.map Prod.fst →
      j ∉ out.resourceWriteSet ++ out.aggregatorV1WriteSet → (j ∈ rem1 ↔ j ∈ prev) := by
    intro j hjA hjBC
    have hh := writeStep_mem_preserved j
      (out.resourceWriteSet ++ out.aggregatorV1WriteSet) rem0 b0 hjBC
    rw [hst1] at hh
    exact hh.trans (hrem0 j hjA)
  obtain ⟨rem2, b2, hst2⟩ :
      ∃ rem2 b2, out.moduleWriteSet.foldl writeStep (rem1, b1) = (rem2, b2) :=
    ⟨_, _, rfl⟩
  have hDagree : ∀ k ∈ out.moduleWriteSet, (k ∈ rem1 ↔ k ∈ prev) := by
    intro k hk
    refine hrem1 k ?_ ?_
    · intro hkA
      exact hAD hkA hk
    · intro hkBC
      rcases List.mem_append.mp hkBC with hkB | hkC
      · exact hBD hkB hk
      · exact hCD hkC hk
  have hb2 : b2 = (b1 || out.moduleWriteSet.any fun k => !(decide (k ∈ prev))) := by
    have hh := writeStep_flag prev out.moduleWriteSet rem1 b1 hD hDagree
    rw [hst2] at hh
    exact hh
  have hrem2 : ∀ j, j ∉ out.resourceGroupWriteSet.map Prod.fst →
      j ∉ out.resourceWriteSet ++ out.aggregatorV1WriteSet →
      j ∉ out.moduleWriteSet → (j ∈ rem2 ↔ j ∈ prev) := by
    intro j hjA hjBC hjD
    have hh := writeStep_mem_preserved j out.moduleWriteSet rem1 b1 hjD
    rw [hst2] at hh
    exact hh.trans (hrem1 j hjA hjBC)
  obtain ⟨rem3, b3, hst3⟩ :
      ∃ rem3 b3, out.aggregatorV1DeltaSet.foldl writeStep (rem2, b2) = (rem3, b3) :=
    ⟨_, _, rfl⟩
  have hEagree : ∀ k ∈ out.aggregatorV1DeltaSet, (k ∈ rem2 ↔ k ∈ prev) := by
    intro k hk
    refine hrem2 k ?_ ?_ ?_
    · intro hkA
      exact hAE hkA hk
    · intro hkBC
      rcases List.mem_append.mp hkBC with hkB | hkC
      · exact hBE hkB hk
      · exact hCE hkC hk
    · intro hkD
      exact hDE hkD hk
  have hb3 : b3 = (b2 || out.aggregatorV1DeltaSet.any fun k => !(decide (k ∈ prev))) := by
    have hh := writeStep_flag prev out.aggregatorV1DeltaSet rem2 b2 hE hEagree
    rw [hst3] at hh
    exact hh
  have hfinal : updates_outside prev out = b3 := by
    unfold updates_outside applyUpdatesState
    simp only [hst0, hst1, hst2, hst3]
  rw [hfinal, hb3, hb2, hb1, hb0]
  simp only [Bool.or_eq_true, List.any_eq_true, Bool.not_eq_true',
    decide_eq_false_iff_not]
  constructor
  · rintro (((⟨gw, hgw, hcase⟩ | ⟨k, hk, hkp⟩) | ⟨k, hk, hkp⟩) | ⟨k, hk, hkp⟩)
    · rcases hcase with hnp | hflag
      · refine Or.inl ⟨gw.1, ?_, hnp⟩
        simp only [writtenKeys, List.mem_append, List.mem_map]
        exact Or.inl (Or.inl (Or.inl (Or.inl ⟨gw, hgw, rfl⟩)))
      · exact Or.inr ⟨gw, hgw, hflag⟩
    · refine Or.inl ⟨k, ?_, hkp⟩
      simp only [writtenKeys, List.mem_append]
      rcases List.mem_append.mp hk with hkB | hkC
      · exact Or.inl (Or.inl (Or.inl (Or.inr hkB)))
      · exact Or.inl (Or.inl (Or.inr hkC))
    · refine Or.inl ⟨k, ?_, hkp⟩
      simp only [writtenKeys, List.mem_append]
      exact Or.inl (Or.inr hk)
    · refine Or.inl ⟨k, ?_, hkp⟩
      simp only [writtenKeys, List.mem_append]
      exact Or.inr hk
  · rintro (⟨k, hk, hkp⟩ | ⟨gw, hgw, hflag⟩)
    · simp only [writtenKeys, List.mem_append, List.mem_map] at hk
      rcases hk with ((((⟨gw, hgw, hgwk⟩ | hkB) | hkC) | hkD) | hkE)
      · exact Or.inl (Or.inl (Or.inl ⟨gw, hgw, Or.inl (hgwk ▸ hkp)⟩))
      · exact Or.inl (Or.inl (Or.inr ⟨k, List.mem_append.mpr (Or.inl hkB), hkp⟩))
      · exact Or.inl (Or.inl (Or.inr ⟨k, List.mem_append.mpr (Or.inr hkC), hkp⟩))
      · exact Or.inl (Or.inr ⟨k, hkD, hkp⟩)
      · exact Or.inr ⟨k, hkE, hkp⟩
    · exact Or.inl (Or.inl (Or.inl ⟨gw, hgw, Or.inr hflag⟩))

/-- Witness for C4: the group write to fresh key 5 and the module write to
fresh key 2 set updates_outside, while key 1 is dropped without effect. -/
theorem C4_updates_outside_iff_witness :
    (writtenKeys c4out).Nodup ∧
      (updates_outside c4prev c4out = true ↔
        ((∃ k, k ∈ writtenKeys c4out ∧ k ∉ c4prev) ∨
          ∃ gw, gw ∈ c4out.resourceGroupWriteSet ∧ gw.2 = true)) :=
  ⟨by decide, C4_updates_outside_iff c4prev c4out (by decide)⟩

/-- C1.  For every block and base view, when both runs succeed the parallel
executor's committed records — which by the commit-time validation contract
are runs of each transaction whose captured reads all equal the view left by
the final writes of indices 0..i-1 — produce, in index order, exactly the
output sequence of sequential execution. -/
theorem C1_parallel_equals_sequential (base : K → Option V)
    (block : List (STxn K V O)) (recs : List (CommitRecord K V O))
    (h : ValidatedRun base block recs) :
    recs.map CommitRecord.output = seqOutputs base block := by
  induction block generalizing base recs with
  | nil =>
      cases recs with
      | nil => rfl
      | cons r rs => exact False.elim h
  | cons t ts ih =>
      cases recs with
      | nil => exact False.elim h
      | cons r rs =>
          obtain ⟨hreads, hcomp, htail⟩ := h
          have hc : t.compute (t.readKeys.map base) = (r.writes, r.output) := by
            rw [← hreads]
            exact hcomp.symm
          show r.output :: rs.map CommitRecord.output
              = (t.compute (t.readKeys.map base)).2 ::
                seqOutputs (applyWrites base (t.compute (t.readKeys.map base)).1) ts
          rw [hc]
          exact congrArg (fun l => r.output :: l) (ih _ _ htail)

/-- Witness for C1 on a one-transaction block over an empty base view. -/
theorem C1_parallel_equals_sequential_witness :
    ValidatedRun c1base [c1txn] [c1rec] ∧
      [c1rec].map CommitRecord.output = seqOutputs c1base [c1txn] := by
  have hval : ValidatedRun c1base [c1txn] [c1rec] := ⟨rfl, rfl, trivial⟩
  exact ⟨hval, C1_parallel_equals_sequential c1base [c1txn] [c1rec] hval⟩

/-- C2.  When a transaction both reads and writes a module key, execute
surfaces ModulePathReadWriteError; a worker error makes the whole parallel
run return Err, and execute_block with fallback allowed then returns the
result of the sequential re-run. -/
theorem C2_module_rw_triggers_fallback (moduleReads moduleWrites : List K)
    (updatesOutside : Bool) (k : K) (hr : k ∈ moduleReads) (hw : k ∈ moduleWrites)
    (workerResults : List (Except (PanicOr ParallelBlockExecutionError) Unit))
    (hwres : Except.error
        (PanicOr.or ParallelBlockExecutionError.modulePathReadWriteError)
        ∈ workerResults)
    (finalResults seqOut : List O) (cl n : Nat) (hcl : 1 < cl) (dfb : Bool)
    (disc : StatusCode → O)
    (seqResult : Bool → Except (SequentialBlockExecutionError E) (List O))
    (hseq : seqResult false = .ok seqOut) :
    execute_record_result moduleReads moduleWrites updatesOutside
        = .error (.or .modulePathReadWriteError) ∧
      parallel_result_from_workers workerResults finalResults = .error () ∧
      execute_block cl true dfb n disc
          (parallel_result_from_workers workerResults finalResults) seqResult
        = .output seqOut := by
  have hrec : record_succeeds moduleReads moduleWrites = false := by
    simp only [record_succeeds, Bool.not_eq_false', List.any_eq_true,
      decide_eq_true_eq]
    exact ⟨k, hr, hw⟩
  have hany : (workerResults.any fun r =>
      match r with | .error _ => true | .ok _ => false) = true :=
    List.any_eq_true.mpr ⟨_, hwres, rfl⟩
  have herr : parallel_result_from_workers workerResults finalResults
      = (.error () : Except Unit (List O)) := by
    simp [parallel_result_from_workers, hany]
  refine ⟨?_, herr, ?_⟩
  · simp [execute_record_result, hrec]
  · rw [herr]
    simp [execute_block, hcl, sequential_execution_outcome, hseq]

/-- Witness for C2 on one module key and a singleton worker error. -/
theorem C2_module_rw_triggers_fallback_witness :
    execute_record_result [0] [(0 : Nat)] false
        = .error (.or .modulePathReadWriteError) ∧
      parallel_result_from_workers [.error (.or .modulePathReadWriteError)]
          ([] : List Nat) = .error () ∧
      execute_block 2 true false 1 (fun _ => (0 : Nat))
          (parallel_result_from_workers [.error (.or .modulePathReadWriteError)]
            ([] : List Nat))
          (fun _ => (.ok [7] : Except (SequentialBlockExecutionError Unit) (List Nat)))
        = .output [7] :=
  C2_module_rw_triggers_fallback [0] [0] false 0 (by decide) (by decide)
    [.error (.or .modulePathReadWriteError)] (by simp) [] [7] 2 1 (by decide)
    false (fun _ => 0) (fun _ => .ok [7]) rfl

/-- C9.  With a failed parallel run, execute_block panics when allow_fallback
is false, and with allow_fallback true it falls through to the sequential
path. -/
theorem C9_allow_fallback_panic (cl : Nat) (hcl : 1 < cl) (dfb : Bool) (n : Nat)
    (disc : StatusCode → O)
    (seqResult : Bool → Except (SequentialBlockExecutionError E) (List O)) :
    execute_block cl false dfb n disc (.error ()) seqResult = .panicked ∧
      execute_block cl true dfb n disc (.error ()) seqResult
        = sequential_execution_outcome true dfb n disc seqResult := by
  constructor <;> simp [execute_block, hcl]

/-- Witness for C9 at concurrency level 2. -/
theorem C9_allow_fallback_panic_witness :
    execute_block 2 false false 0 (fun _ => (0 : Nat)) (.error ())
        (fun _ => (.ok [] : Except (SequentialBlockExecutionError Unit) (List Nat)))
        = .panicked ∧
      execute_block 2 true false 0 (fun _ => (0 : Nat)) (.error ())
        (fun _ => (.ok [] : Except (SequentialBlockExecutionError Unit) (List Nat)))
        = sequential_execution_outcome true false 0 (fun _ => (0 : Nat))
            (fun _ => .ok []) :=
  C9_allow_fallback_panic 2 (by decide) false 0 (fun _ => (0 : Nat))
    (fun _ => .ok [])

/-- C10.  A captured read set with the incorrect-use flag makes validate
return a CodeInvariantError (never a mere invalid-read result), and a worker
surfacing that error makes the whole parallel run fail. -/
theorem C10_incorrect_use_is_hard_failure (rs : CapturedReadsState)
    (h : rs.isIncorrectUse = true)
    (workerResults : List (Except (PanicOr ParallelBlockExecutionError) Unit))
    (finalResults : List O)
    (hw : Except.error (panicErrToPanicOr (PanicError.codeInvariantError
        "Incorrect use detected in CapturedReads")) ∈ workerResults) :
    validate rs
        = .error (.codeInvariantError "Incorrect use detected in CapturedReads") ∧
      (∀ b : Bool, validate rs ≠ .ok b) ∧
      parallel_result_from_workers workerResults finalResults = .error () := by
  have hv : validate rs
      = .error (.codeInvariantError "Incorrect use detected in CapturedReads") := by
    simp [validate, h]
  refine ⟨hv, ?_, ?_⟩
  · intro b hb
    rw [hv] at hb
    exact Except.noConfusion hb
  · have hany : (workerResults.any fun r =>
        match r with | .error _ => true | .ok _ => false) = true :=
      List.any_eq_true.mpr ⟨_, hw, rfl⟩
    simp [parallel_result_from_workers, hany]

/-- Witness for C10 on a read set with the incorrect-use flag raised. -/
theorem C10_incorrect_use_is_hard_failure_witness :
    validate ⟨true, true, true⟩
        = .error (.codeInvariantError "Incorrect use detected in CapturedReads") ∧
      (∀ b : Bool, validate ⟨true, true, true⟩ ≠ .ok b) ∧
      parallel_result_from_workers
          [.error (panicErrToPanicOr (PanicError.codeInvariantError
            "Incorrect use detected in CapturedReads"))] ([] : List Nat)
        = .error () :=
  C10_incorrect_use_is_hard_failure ⟨true, true, true⟩ rfl
    [.error (panicErrToPanicOr (PanicError.codeInvariantError
      "Incorrect use detected in CapturedReads"))] [] (by simp)

/-- C3.  On a commit-ready index whose validate_commit_ready fails — because
the delayed-field reads are invalid or delayed-field try_commit reports
ReExecutionNeeded — the pipeline aborts the incarnation and re-executes the
index exactly once, in-line, with incarnation + 1; and when validate or the
second validate_commit_ready fails after that, the pipeline returns a
CodeInvariantError.  A passing first check takes no action. -/
theorem C3_commit_pipeline_reexecutes_once (txnIdx incarnation : Nat)
    (dk : Option Unit) (tc : Except CommitError Unit) (m : String)
    (vcr2 : Except PanicError Bool) (v : Bool) :
    validate_commit_ready (.ok false) dk tc = .ok false ∧
      validate_commit_ready (.ok true) (some ())
          (.error (.reExecutionNeeded m)) = .ok false ∧
      (commit_ready_validate_phase txnIdx incarnation (.ok false) (.ok ())
          (.ok v) vcr2).1
        = [CommitAction.abortUpdate txnIdx,
            CommitAction.reexecute txnIdx (incarnation + 1)] ∧
      ((!v || !(match vcr2 with | .ok b => b | .error _ => false)) = true →
        (commit_ready_validate_phase txnIdx incarnation (.ok false) (.ok ())
            (.ok v) vcr2).2
          = .error (.codeInvariantError "Validation after re-execution failed")) ∧
      (commit_ready_validate_phase txnIdx incarnation (.ok true) (.ok ())
          (.ok v) vcr2).1 = [] := by
  refine ⟨rfl, rfl, ?_, ?_, rfl⟩
  · by_cases hcond :
        (!v || !(match vcr2 with | .ok b => b | .error _ => false)) = true
    · simp [commit_ready_validate_phase, hcond]
    · simp [commit_ready_validate_phase, hcond]
  · intro hcond
    simp [commit_ready_validate_phase, hcond]

/-- Witness for C3 with an invalid first check and a failing re-validation. -/
theorem C3_commit_pipeline_reexecutes_once_witness :
    validate_commit_ready (.ok false) none (.ok ()) = .ok false ∧
      (commit_ready_validate_phase 3 1 (.ok false) (.ok ()) (.ok false)
          (.ok true)).1
        = [CommitAction.abortUpdate 3, CommitAction.reexecute 3 2] ∧
      (commit_ready_validate_phase 3 1 (.ok false) (.ok ()) (.ok false)
          (.ok true)).2
        = .error (.codeInvariantError "Validation after re-execution failed") := by
  have h := C3_commit_pipeline_reexecutes_once 3 1 none (.ok ()) "m" (.ok true) false
  exact ⟨h.1, h.2.2.1, h.2.2.2.1 (by decide)⟩

theorem mem_commitSeqFrom (n : Nat) (skipRestAt : Nat → Bool) :
    ∀ (fuel idx j : Nat), j ∈ commitSeqFrom n skipRestAt fuel idx →
      idx ≤ j ∧ ∀ m, idx ≤ m → m < j → (m + 1 ≠ n ∧ skipRestAt m = false) := by
  intro fuel
  induction fuel with
  | zero =>
      intro idx j hj
      exact absurd hj (List.not_mem_nil j)
  | succ fuel ih =>
      intro idx j hj
      rw [commitSeqFrom] at hj
      by_cases hstop : (decide (idx + 1 = n) || skipRestAt idx) = true
      · rw [if_pos hstop] at hj
        have hji : j = idx := List.mem_singleton.mp hj
        subst hji
        exact ⟨Nat.le_refl j, fun m hm1 hm2 =>
          absurd (Nat.lt_of_le_of_lt hm1 hm2) (Nat.lt_irrefl j)⟩
      · rw [if_neg hstop] at hj
        simp only [Bool.or_eq_true, decide_eq_true_eq, not_or,
          Bool.not_eq_true] at hstop
        obtain ⟨hne, hskip⟩ := hstop
        rcases List.mem_cons.mp hj with rfl | hj2
        · exact ⟨Nat.le_refl j, fun m hm1 hm2 =>
            absurd (Nat.lt_of_le_of_lt hm1 hm2) (Nat.lt_irrefl j)⟩
        · obtain ⟨h1, h2⟩ := ih (idx + 1) j hj2
          refine ⟨Nat.le_trans (Nat.le_succ idx) h1, ?_⟩
          intro m hm1 hm2
          by_cases hmi : m = idx
          · subst hmi
            exact ⟨hne, hskip⟩
          · exact h2 m (Nat.lt_of_le_of_ne hm1 (fun hh => hmi hh.symm)) hm2

/-- C5.  When an index c with recorded status SkipRest commits, no index
greater than c ever commits (the scheduler halts after c), the listener is
never invoked for any such index, and every final-results slot above c holds
the skip_output sentinel it was initialized with. -/
theorem C5_skip_rest_contagion (n c : Nat) (skipRestAt : Nat → Bool)
    (skipOutput : O) (materializedOutput : Nat → O)
    (hc : c ∈ commitSequence n skipRestAt) (hskip : skipRestAt c = true) :
    (∀ j ∈ commitSequence n skipRestAt, j ≤ c) ∧
      ∀ i, c < i →
        i ∉ listener_invoked_indices n skipRestAt ∧
        (i < n → (parallel_final_results n skipOutput materializedOutput
            skipRestAt).getD i skipOutput = skipOutput) := by
  have hnotmem : ∀ i, c < i → i ∉ commitSequence n skipRestAt := by
    intro i hi hmem
    obtain ⟨-, h2⟩ := mem_commitSeqFrom n skipRestAt n 0 i hmem
    have hcontra := (h2 c (Nat.zero_le c) hi).2
    rw [hskip] at hcontra
    exact Bool.noConfusion hcontra
  refine ⟨?_, ?_⟩
  · intro j hj
    by_contra hjc
    exact hnotmem j (Nat.lt_of_not_le hjc) hj
  · intro i hi
    refine ⟨hnotmem i hi, ?_⟩
    intro hin
    have hval : (parallel_final_results n skipOutput materializedOutput
        skipRestAt).getD i skipOutput
        = if i ∈ commitSequence n skipRestAt then materializedOutput i
          else skipOutput := by
      unfold parallel_final_results
      rw [List.getD_eq_getElem?_getD, List.getElem?_map, List.getElem?_range hin]
      rfl
    rw [hval, if_neg (hnotmem i hi)]

/-- Witness for C5 on a three-transaction block whose middle transaction
skips the rest. -/
theorem C5_skip_rest_contagion_witness :
    (1 ∈ commitSequence 3 fun i => decide (i = 1)) ∧
      (2 ∉ listener_invoked_indices 3 fun i => decide (i = 1)) ∧
      (parallel_final_results 3 (0 : Nat) (fun i => i + 10)
          fun i => decide (i = 1)).getD 2 0 = 0 := by
  have h := C5_skip_rest_contagion 3 1 (fun i => decide (i = 1)) (0 : Nat)
    (fun i => i + 10) (by decide) (by decide)
  have h2 := h.2 2 (by decide)
  exact ⟨by decide, h2.1, h2.2 (by decide)⟩

/-- C6.  During commit of an index, the tuple (fee statement, read-write
summary, approximate output size) is fed to the block limit processor iff a
fee statement is recorded, and the status is rewritten to SkipRest exactly
when a fee statement is recorded, the index is not the last one, and the
processor then wants to end the block. -/
theorem C6_gas_step_skip_rest (cfg : BlockGasLimitTypeCfg)
    (env : CommitGasEnv F R P) (txnIdx n : Nat) (proc : P) :
    (commit_gas_step cfg env txnIdx n proc).2.2
        = env.feeStatement.map (fun fs =>
            (fs, txn_read_write_summary cfg env, approx_output_size cfg env)) ∧
      ((commit_gas_step cfg env txnIdx n proc).2.1 = true ↔
        ∃ fs, env.feeStatement = some fs ∧ txnIdx < n - 1 ∧
          env.shouldEndBlockParallel
            (env.accumulateFeeStatement proc fs (txn_read_write_summary cfg env)
              (approx_output_size cfg env)) = true) := by
  cases hfs : env.feeStatement with
  | none => simp [commit_gas_step, hfs]
  | some fs =>
      constructor
      · simp [commit_gas_step, hfs]
      · simp only [commit_gas_step, hfs, Bool.and_eq_true, decide_eq_true_eq,
          Option.some.injEq]
        constructor
        · rintro ⟨h1, h2⟩
          exact ⟨fs, rfl, h1, h2⟩
        · rintro ⟨fs2, rfl, h1, h2⟩
          exact ⟨h1, h2⟩

theorem seq_loop_length_le (steps : List (ExecutionStatus O E × Bool)) :
    ∀ outs : List O, seq_loop steps = .ok outs → outs.length ≤ steps.length := by
  induction steps with
  | nil =>
      intro outs h
      simp only [seq_loop] at h
      cases h
      exact Nat.le_refl 0
  | cons p rest ih =>
      intro outs h
      obtain ⟨st, endAfter⟩ := p
      cases st with
      | Abort err => exact absurd h (by simp [seq_loop])
      | DelayedFieldsCodeInvariantError m => exact absurd h (by simp [seq_loop])
      | SpeculativeExecutionAbortError m => exact absurd h (by simp [seq_loop])
      | SkipRest out =>
          simp only [seq_loop] at h
          cases h
          simp
      | Success out =>
          by_cases he : endAfter = true
          · simp only [seq_loop, he, if_true] at h
            cases h
            simp
          · simp only [seq_loop, he, if_false, Bool.false_eq_true] at h
            cases hrec : seq_loop rest with
            | ok outs2 =>
                rw [hrec] at h
                cases h
                simpa using Nat.succ_le_succ (ih outs2 hrec)
            | error e =>
                rw [hrec] at h
                exact absurd h (by simp)

/-- C8.  A successful block result has exactly one output per input
transaction: the parallel output vector has length n (and is empty for
n = 0), and a successful sequential run pads its collected outputs with
skip_output up to exactly the block length. -/
theorem C8_one_output_per_txn (n : Nat) (skipOutput : O)
    (materializedOutput : Nat → O) (skipRestAt : Nat → Bool)
    (steps : List (ExecutionStatus O E × Bool)) (outs : List O)
    (hseq : execute_transactions_sequential_outputs skipOutput steps = .ok outs) :
    execute_transactions_parallel_outputs 0 skipOutput materializedOutput
        skipRestAt = ([] : List O) ∧
      (execute_transactions_parallel_outputs n skipOutput materializedOutput
        skipRestAt).length = n ∧
      outs.length = steps.length := by
  refine ⟨rfl, ?_, ?_⟩
  · cases n with
    | zero => rfl
    | succ n2 =>
        simp [execute_transactions_parallel_outputs, parallel_final_results]
  · cases hloop : seq_loop steps with
    | error e =>
        rw [execute_transactions_sequential_outputs, hloop] at hseq
        exact absurd hseq (by simp)
    | ok ret =>
        rw [execute_transactions_sequential_outputs, hloop] at hseq
        have hlen := seq_loop_length_le steps ret hloop
        injection hseq with hout
        rw [← hout]
        simp only [List.length_append, List.length_replicate]
        omega

/-- Witness for C8 on a one-transaction successful sequential run and a
two-transaction parallel shape. -/
theorem C8_one_output_per_txn_witness :
    execute_transactions_parallel_outputs 0 (0 : Nat) (fun i => i)
        (fun _ => false) = [] ∧
      (execute_transactions_parallel_outputs 2 (0 : Nat) (fun i => i)
        (fun _ => false)).length = 2 ∧
      ([5, 0] : List Nat).length
        = ([(ExecutionStatus.Success 5, false),
            (ExecutionStatus.SkipRest 0, false)] :
              List (ExecutionStatus Nat Unit × Bool)).length :=
  C8_one_output_per_txn 2 0 (fun i => i) (fun _ => false)
    [(ExecutionStatus.Success 5, false), (ExecutionStatus.SkipRest 0, false)]
    [5, 0] rfl

/-- C7.  Any status that passes the commit pipeline's pre-enqueue checks
cannot steer materialize_txn_commit into its fatal branch, and the two
speculative-internal statuses never pass those checks. -/
theorem C7_materialize_fatal_unreachable (s : ExecutionStatus O E) (txnIdx : Nat)
    (h : commit_status_checks s = .ok ()) :
    materialize_listener_step txnIdx s ≠ MaterializeListenerStep.unreachableFatal ∧
      (∀ m, commit_status_checks
          (ExecutionStatus.SpeculativeExecutionAbortError m : ExecutionStatus O E)
          ≠ .ok ()) ∧
      ∀ m, commit_status_checks
          (ExecutionStatus.DelayedFieldsCodeInvariantError m : ExecutionStatus O E)
          ≠ .ok () := by
  refine ⟨?_, ?_, ?_⟩
  · cases s with
    | Success o =>
        intro hh
        exact MaterializeListenerStep.noConfusion hh
    | SkipRest o =>
        intro hh
        exact MaterializeListenerStep.noConfusion hh
    | Abort e =>
        intro hh
        exact MaterializeListenerStep.noConfusion hh
    | SpeculativeExecutionAbortError m =>
        exact absurd h (by simp [commit_status_checks, check_fatal_vm_error,
          check_execution_status_during_commit, panicErrToPanicOr])
    | DelayedFieldsCodeInvariantError m =>
        exact absurd h (by simp [commit_status_checks, check_fatal_vm_error,
          check_execution_status_during_commit, panicErrToPanicOr])
  · intro m hok
    simp [commit_status_checks, check_fatal_vm_error,
      check_execution_status_during_commit, panicErrToPanicOr] at hok
  · intro m hok
    simp [commit_status_checks, check_fatal_vm_error,
      check_execution_status_during_commit, panicErrToPanicOr] at hok

/-- Witness for C7 on a successful status. -/
theorem C7_materialize_fatal_unreachable_witness :
    materialize_listener_step 5 (ExecutionStatus.Success (0 : Nat) :
        ExecutionStatus Nat Nat)
        ≠ MaterializeListenerStep.unreachableFatal ∧
      (∀ m, commit_status_checks
          (ExecutionStatus.SpeculativeExecutionAbortError m :
            ExecutionStatus Nat Nat) ≠ .ok ()) ∧
      ∀ m, commit_status_checks
          (ExecutionStatus.DelayedFieldsCodeInvariantError m :
            ExecutionStatus Nat Nat) ≠ .ok () :=
  C7_materialize_fatal_unreachable (ExecutionStatus.Success 0) 5 rfl

end BlockSTM
